import Mathlib

/-!
Verification of the visual measurement update of the `violet`
visual-inertial estimation engine (`src/visual_update.rs`) against its
natural-language specification.

The embedding models the Rust code over exact real arithmetic:
`nalgebra` vectors and matrices become functions out of `Fin n` /
Mathlib matrices, fallible operations (`try_inverse`, indexing, the
`unwrap`) become `Option`-valued operations, and a Rust panic
(out-of-range index, failed `assert!`, `unwrap` of `None`) is a
distinguished `fault` outcome of the per-track pipeline.
-/

open Classical

abbrev Vec3 : Type := Fin 3 → ℝ
abbrev Vec2 : Type := ℝ × ℝ
/-- One `[Vector2d; 2]` entry: the normalized coordinates seen by the two
stereo cameras. -/
abbrev NC2 : Type := Vec2 × Vec2
abbrev Mat3 : Type := Matrix (Fin 3) (Fin 3) ℝ
abbrev Mat34 : Type := Matrix (Fin 3) (Fin 4) ℝ
abbrev Mat23 : Type := Matrix (Fin 2) (Fin 3) ℝ

/-- Euclidean norm of a 3-vector, as computed by `nalgebra`s `norm`. -/
noncomputable def norm3 (v : Vec3) : ℝ := Real.sqrt (v 0 ^ 2 + v 1 ^ 2 + v 2 ^ 2)

/-- `nalgebra`s `normalize`: divide componentwise by the norm. -/
noncomputable def normalize3 (v : Vec3) : Vec3 := fun i => v i / norm3 v

/-- `Vector3d::new(ip[0], ip[1], 0.)`: lift a normalized image coordinate to a
3-vector with zero third component (`visual_update.rs` lines 190 and 205). -/
def lift2 (ip : Vec2) : Vec3 := ![ip.1, ip.2, 0]

/-- Outer product `u * v.transpose()` of two 3-vectors. -/
def outer3 (u v : Vec3) : Mat3 := Matrix.vecMulVec u v

/-- Standard basis vector `ek` of `visual_update.rs` lines 226-227. -/
def stdBasis3 (k : Fin 3) : Vec3 := fun i => if i = k then 1 else 0

/-- One camera pose as returned by the filters pose-trail accessor:
rotation (camera-from-world), position (world frame), and the four
derivatives of `R` with respect to the quaternion components. -/
structure KalmanFilterPose where
  R : Mat3
  p : Vec3
  dR_dq : Fin 4 → Mat3

/-- A stereo pair of camera poses for one retained filter slot. -/
abbrev PosePair : Type := KalmanFilterPose × KalmanFilterPose

/-- One observation of a track: frame number plus the stereo pair of
normalized coordinates. -/
structure TrackedPoint where
  frame_number : ℕ
  normalized_coordinates : NC2

/-- A feature track: its points, sorted ascending by frame number
(invariant owned by the external tracker). -/
structure Track where
  points : List TrackedPoint

/-- The narrow query interface of the filter collaborator consumed by
`VisualUpdate::process`.  `get_camera_pose_trail` returns `none` exactly when
the Rust accessor reports `success = false`. -/
structure KalmanFilter where
  get_camera_pose_trail : List ℕ → Option (List PosePair)
  get_camera_state_len : ℕ
  get_camera_pos_ind : ℕ → ℕ
  get_camera_ori_ind : ℕ → ℕ

/-- Where a Rust panic would occur in the per-track pipeline. -/
inductive FaultSite where
  | windowIndex
  | poseTrailAssert
  | yIndex
  | hIndex
  | unwrapHnorm
deriving DecidableEq

/-- Outcome of a per-track stage: a Rust panic (`fault`), the track being
skipped for this frame (`skip`, a `continue` in the Rust loop), or success. -/
inductive TrackStep (α : Type) where
  | fault (s : FaultSite)
  | skip
  | ok (a : α)

/-- Output of `triangulate`: the point and its derivative arrays. -/
structure TriangulateOutput where
  a : Vec3
  da_dp : List Mat3
  da_dq : List Mat34

/-- The code matrix `d_normalized_ac` built by `VisualUpdate::process`
(`visual_update.rs` lines 115-119): zeros except the four assigned entries. -/
noncomputable def d_normalized_ac (ac : Vec3) : Mat23 :=
  !![1 / ac 2, 0, -(ac 0) / ac 2;
     0, 1 / ac 2, -(ac 1) / ac 2]

/-- Modelled from the spec: the projection Jacobian stated in the
specification, `d(hnormalize)/d(ac) = [[1/z, 0, -x/z^2], [0, 1/z, -y/z^2]]`. -/
noncomputable def specProjJacobian (ac : Vec3) : Mat23 :=
  !![1 / ac 2, 0, -(ac 0) / ac 2 ^ 2;
     0, 1 / ac 2, -(ac 1) / ac 2 ^ 2]

/-- Modelled from the spec: `hnormalize` is the repositorys projection helper
(declared outside the specified core, in the `all` module that is not part of
the provided sources).  The spec gives `hnormalize(ac) = (ac.x/ac.z, ac.y/ac.z)`
and treats it as fallible, defined whenever the point is in front of the
camera (`ac.z > 0`). -/
noncomputable def hnormalize (v : Vec3) : Option Vec2 :=
  if 0 < v 2 then some (v 0 / v 2, v 1 / v 2) else none

/-! ## Track aligner (`VisualUpdate::process`, lines 50-62) -/

/-- The inner `while` loop of the aligner (`visual_update.rs` lines 53-55):
advance `i` while it is in range and the window entry at `i` is older than the
track points frame number `f`. -/
def advanceIdx (w : List ℕ) (f : ℕ) (i : ℕ) : ℕ :=
  if h : i < w.length then
    if w.get ⟨i, h⟩ < f then advanceIdx w f (i + 1) else i
  else i
termination_by w.length - i
decreasing_by omega

/-- The aligner loop of `VisualUpdate::process` (lines 50-62), one step per
track point.  `w.get? i = none` models the Rust `VecDeque` index panic on the
accesses `pose_trail_frame_numbers[i]` at lines 52 and 56.  The `break` at
line 61 is unreachable: it would require `i >= len`, but then the access at
line 56 has already panicked, so it does not appear below. -/
def alignLoop (w : List ℕ) : List TrackedPoint → ℕ → TrackStep (List ℕ × List NC2)
  | [], _ => .ok ([], [])
  | pt :: rest, i =>
    match w.get? i with
    | none => .fault .windowIndex
    | some wi =>
      if pt.frame_number < wi then alignLoop w rest i
      else
        match w.get? (advanceIdx w pt.frame_number i) with
        | none => .fault .windowIndex
        | some wi2 =>
          if wi2 = pt.frame_number then
            match alignLoop w rest (advanceIdx w pt.frame_number i) with
            | .ok (inds, ncs) =>
                .ok ((w.length - advanceIdx w pt.frame_number i - 1) :: inds,
                     pt.normalized_coordinates :: ncs)
            | r => r
          else alignLoop w rest (advanceIdx w pt.frame_number i)

/-- Modelled from the spec (track-aligner contract, spec section 4.1): the pairs
(filter-state slot, normalized coordinates) of exactly those track points whose
frame number equals a retained window entry, in track order, with the matching
window index `j` mapped to the filter-state slot `N - 1 - j`. -/
def specAlignPairs (w : List ℕ) (pts : List TrackedPoint) : List (ℕ × NC2) :=
  pts.filterMap fun pt =>
    (w.findIdx? (fun x => x == pt.frame_number)).map
      fun j => (w.length - 1 - j, pt.normalized_coordinates)

/-! ## Triangulator (`triangulate`, lines 172-237) -/

/-- Flatten the aligned per-pose stereo observations into the sequence of
camera observations visited by the `i`/`j` loops of `triangulate`. -/
def camObs : List NC2 → List PosePair → List (Vec2 × KalmanFilterPose)
  | nc :: ncs, pp :: pps => (nc.1, pp.1) :: (nc.2, pp.2) :: camObs ncs pps
  | _, _ => []

/-- The unit ray direction of the accumulation loop (`visual_update.rs`
line 191): `pose.R.transpose() * ip.normalize()` with `ip` the lifted
coordinate.  Note the code normalizes before rotating. -/
noncomputable def triVn (pose : KalmanFilterPose) (ip : Vec2) : Vec3 :=
  pose.R.transpose.mulVec (normalize3 (lift2 ip))

/-- Modelled from the spec: the ray direction the spec prescribes,
`vn = normalize(transpose(R) * (x, y, 0))` — rotate first, then normalize.
Also the ray used by the derivative loop of the code (lines 206-207). -/
noncomputable def specVn (pose : KalmanFilterPose) (ip : Vec2) : Vec3 :=
  normalize3 (pose.R.transpose.mulVec (lift2 ip))

/-- Accumulated system matrix `S` of `triangulate` (lines 184-196). -/
noncomputable def triS (ncs : List NC2) (poses : List PosePair) : Mat3 :=
  ((camObs ncs poses).map fun o =>
    (1 : Mat3) - outer3 (triVn o.2 o.1) (triVn o.2 o.1)).sum

/-- Accumulated vector `t` of `triangulate` (lines 184-196). -/
noncomputable def triT (ncs : List NC2) (poses : List PosePair) : Vec3 :=
  ((camObs ncs poses).map fun o =>
    ((1 : Mat3) - outer3 (triVn o.2 o.1) (triVn o.2 o.1)).mulVec o.2.p).sum

/-- The `da_dp` entry pushed for one camera observation (line 209):
`inv_S * A` with `A = I - vn * vn.transpose()` from the derivative loop. -/
noncomputable def daDpEntry (invS : Mat3) (o : Vec2 × KalmanFilterPose) : Mat3 :=
  invS * ((1 : Mat3) - outer3 (specVn o.2 o.1) (specVn o.2 o.1))

/-- `dv_dq` of the derivative loop (lines 212-215): column `k` is
`pose.dR_dq[k].transpose() * ip`. -/
noncomputable def dvDq (pose : KalmanFilterPose) (ip : Vec2) : Mat34 :=
  Matrix.of fun r k => ((pose.dR_dq k).transpose.mulVec (lift2 ip)) r

/-- `da_dvn` of the derivative loop (lines 222-230): column `k` is
`inv_S * Q * inv_S * t - inv_S * Q * pose.p` with
`Q = ek * vn.transpose() + vn * ek.transpose()`. -/
noncomputable def daDvn (invS : Mat3) (t : Vec3) (p : Vec3) (vn : Vec3) : Mat3 :=
  Matrix.of fun r k =>
    ((invS * (outer3 (stdBasis3 k) vn + outer3 vn (stdBasis3 k)) * invS).mulVec t
      - (invS * (outer3 (stdBasis3 k) vn + outer3 vn (stdBasis3 k))).mulVec p) r

/-- The `da_dq` entry pushed for one camera observation (line 232):
`da_dvn * dvn_dv * dv_dq`, with `dvn_dv = A / v.norm()` (line 219). -/
noncomputable def daDqEntry (invS : Mat3) (t : Vec3) (o : Vec2 × KalmanFilterPose) : Mat34 :=
  daDvn invS t o.2.p (specVn o.2 o.1)
    * ((norm3 (o.2.R.transpose.mulVec (lift2 o.1)))⁻¹
        • ((1 : Mat3) - outer3 (specVn o.2 o.1) (specVn o.2 o.1)))
    * dvDq o.2 o.1

/-- `triangulate` (`visual_update.rs` lines 172-237).  Returns `none` exactly
when `S.try_inverse()` fails, i.e. when `S` is singular.  The
`assert_eq!(normalized_coordinates.len(), kalman_filter_poses.len())` is a
caller precondition: `process` always passes lists of equal length. -/
noncomputable def triangulate (ncs : List NC2) (poses : List PosePair) :
    Option TriangulateOutput :=
  if IsUnit (triS ncs poses).det then
    some { a := (triS ncs poses)⁻¹.mulVec (triT ncs poses)
           da_dp := (camObs ncs poses).map (daDpEntry (triS ncs poses)⁻¹)
           da_dq := (camObs ncs poses).map (daDqEntry (triS ncs poses)⁻¹ (triT ncs poses)) }
  else none

/-! ## Measurement linearizer (`VisualUpdate::process`, lines 96-140) -/

/-- The stacked vector `y` (and `z`): a length together with its entries.
Writing past the length models the `nalgebra` index panic. -/
structure VecR where
  len : ℕ
  entry : ℕ → ℝ

/-- Checked write `v[i] = x`; `none` models the Rust index panic. -/
def VecR.write (v : VecR) (i : ℕ) (x : ℝ) : Option VecR :=
  if i < v.len then
    some ⟨v.len, fun j => if j = i then x else v.entry j⟩
  else none

/-- The Jacobian buffer `H`: dimensions together with the entries. -/
structure MatR where
  rows : ℕ
  cols : ℕ
  entry : ℕ → ℕ → ℝ

/-- Checked write of an `h × wdt` block at `(r, c)`, as performed by
`fixed_slice_mut::<h, wdt>(r, c).copy_from(..)`; `none` models the panic when
the slice exceeds the matrix. -/
def MatR.writeBlock (M : MatR) (r c h wdt : ℕ) (f : ℕ → ℕ → ℝ) : Option MatR :=
  if r + h ≤ M.rows ∧ c + wdt ≤ M.cols then
    some ⟨M.rows, M.cols, fun i j =>
      if r ≤ i ∧ i < r + h ∧ c ≤ j ∧ j < c + wdt then f (i - r) (j - c)
      else M.entry i j⟩
  else none

/-- Entries of a 2 x 3 matrix reindexed over `ℕ` for block writes. -/
def entry23 (M : Mat23) (r c : ℕ) : ℝ :=
  if hr : r < 2 then if hc : c < 3 then M ⟨r, hr⟩ ⟨c, hc⟩ else 0 else 0

/-- The 2 x 1 value written for orientation column `m`
(`visual_update.rs` lines 131-135): `d_normalized_ac * pose.dR_dq[m] * (aw - pose.p)`. -/
noncomputable def oriVals (d : Mat23) (pose : KalmanFilterPose) (dv : Vec3)
    (m : Fin 4) (r : Fin 2) : ℝ :=
  (d.mulVec ((pose.dR_dq m).mulVec dv)) r

/-- The `for m in 0..4` loop of lines 131-135: four checked 2 x 1 block
writes into the orientation columns. -/
noncomputable def writeOriBlocks (H : MatR) (row col : ℕ)
    (val : Fin 4 → Fin 2 → ℝ) : Option MatR :=
  match H.writeBlock row (col + 0) 2 1
      (fun r _ => if h : r < 2 then val 0 ⟨r, h⟩ else 0) with
  | none => none
  | some H0 =>
  match H0.writeBlock row (col + 1) 2 1
      (fun r _ => if h : r < 2 then val 1 ⟨r, h⟩ else 0) with
  | none => none
  | some H1 =>
  match H1.writeBlock row (col + 2) 2 1
      (fun r _ => if h : r < 2 then val 2 ⟨r, h⟩ else 0) with
  | none => none
  | some H2 =>
    H2.writeBlock row (col + 3) 2 1
      (fun r _ => if h : r < 2 then val 3 ⟨r, h⟩ else 0)

/-- The sequence of camera observations visited by the linearizer loops
`for i in 0..n { for j in 0..2 { .. } }`, each paired with its pose index `i`.
The flat position of pose `i`, camera `j` is `2 * i + j`, which is exactly the
`row` variable of the code. -/
def flattenPosesAux (i : ℕ) : List PosePair → List (ℕ × KalmanFilterPose)
  | [] => []
  | pp :: rest => (i, pp.1) :: (i, pp.2) :: flattenPosesAux (i + 1) rest

def flattenPoses (poses : List PosePair) : List (ℕ × KalmanFilterPose) :=
  flattenPosesAux 0 poses

/-- The linearizer loop body (`visual_update.rs` lines 100-140), one step per
camera observation, carrying the row counter `row = 2 * i + j` and the
buffers `y` and `H`.  `skip` is the `continue (quote) track` taken when the
triangulated point is not in front of the camera (line 111). -/
noncomputable def linLoop (aw : Vec3) (posInd oriInd : ℕ → ℕ) :
    List (ℕ × KalmanFilterPose) → ℕ → VecR → MatR → TrackStep (VecR × MatR)
  | [], _, y, H => .ok (y, H)
  | (i, pose) :: rest, row, y, H =>
    if (pose.R.mulVec (aw - pose.p)) 2 ≤ 0 then .skip
    else
      match hnormalize (pose.R.mulVec (aw - pose.p)) with
      | none => .fault .unwrapHnorm
      | some nac =>
        match y.write row nac.1 with
        | none => .fault .yIndex
        | some y1 =>
          match y1.write (row + 1) nac.2 with
          | none => .fault .yIndex
          | some y2 =>
            match H.writeBlock row (posInd i) 2 3
                (entry23 (-(d_normalized_ac (pose.R.mulVec (aw - pose.p))) * pose.R)) with
            | none => .fault .hIndex
            | some H1 =>
              match writeOriBlocks H1 row (oriInd i)
                  (oriVals (d_normalized_ac (pose.R.mulVec (aw - pose.p))) pose (aw - pose.p)) with
              | none => .fault .hIndex
              | some H2 => linLoop aw posInd oriInd rest (row + 1) y2 H2

/-- One iteration of the `(quote) track` loop of `VisualUpdate::process` for a
single track: align, query the pose trail (the failed `assert!(success)` at
line 69 is a panic), triangulate (failure skips the track, lines 71-77), then
linearize.  The buffers are the freshly resized `y` (length `2 * n`) and `H`
(`2 * n` rows, `get_camera_state_len` columns) of lines 96-99. -/
noncomputable def processTrack (kf : KalmanFilter) (w : List ℕ) (track : Track) :
    TrackStep (VecR × MatR) :=
  match alignLoop w track.points 0 with
  | .fault s => .fault s
  | .skip => .skip
  | .ok (indices, ncs) =>
    match kf.get_camera_pose_trail indices with
    | none => .fault .poseTrailAssert
    | some poses =>
      match triangulate ncs poses with
      | none => .skip
      | some out =>
        linLoop out.a kf.get_camera_pos_ind kf.get_camera_ori_ind
          (flattenPoses poses) 0
          ⟨2 * poses.length, fun _ => 0⟩
          ⟨2 * poses.length, kf.get_camera_state_len, fun _ _ => 0⟩

/-- `VisualUpdate::process` over the whole track list: a panic anywhere aborts
the process (`none`); otherwise one entry per track, `none` for a skipped
track and the built measurement model for a processed one. -/
noncomputable def processTracks (kf : KalmanFilter) (w : List ℕ) :
    List Track → Option (List (Option (VecR × MatR)))
  | [] => some []
  | t :: ts =>
    match processTrack kf w t with
    | .fault _ => none
    | .skip => (processTracks kf w ts).map fun rs => none :: rs
    | .ok r => (processTracks kf w ts).map fun rs => some r :: rs

/-! ## Spec-side triangulation formulas (spec section 4.3), for the
refinement claims C2 and C3.  These follow the words of the spec, with
`vn = normalize(transpose(R) * (x, y, 0))`. -/

/-- Modelled from the spec: `S = sum of (I - vn vn^t)` over all camera
observations. -/
noncomputable def specSMat (ncs : List NC2) (poses : List PosePair) : Mat3 :=
  ((camObs ncs poses).map fun o =>
    (1 : Mat3) - outer3 (specVn o.2 o.1) (specVn o.2 o.1)).sum

/-- Modelled from the spec: `t = sum of (I - vn vn^t) * p` over all camera
observations. -/
noncomputable def specTVec (ncs : List NC2) (poses : List PosePair) : Vec3 :=
  ((camObs ncs poses).map fun o =>
    ((1 : Mat3) - outer3 (specVn o.2 o.1) (specVn o.2 o.1)).mulVec o.2.p).sum

/-- Modelled from the spec: the per-observation position derivatives,
`da/dp_i = S^-1 * (I - vn_i vn_i^t)`, aligned with the observation order. -/
noncomputable def specDaDp (ncs : List NC2) (poses : List PosePair) : List Mat3 :=
  (camObs ncs poses).map fun o =>
    (specSMat ncs poses)⁻¹
      * ((1 : Mat3) - outer3 (specVn o.2 o.1) (specVn o.2 o.1))

/-- Modelled from the spec: the per-observation orientation derivatives,
`da/dq_i = da/dvn * dvn/dv * dv/dq_i`, where column `k` of `da/dvn` is
`S^-1 Q_k S^-1 t - S^-1 Q_k p_i` with `Q_k = e_k vn^t + vn e_k^t`,
`dvn/dv = (I - vn vn^t) / norm(v)` and column `k` of `dv/dq` is
`transpose(dR/dq_k) * (x, y, 0)`. -/
noncomputable def specDaDq (ncs : List NC2) (poses : List PosePair) : List Mat34 :=
  (camObs ncs poses).map fun o =>
    (Matrix.of fun r k =>
      (((specSMat ncs poses)⁻¹
          * (outer3 (stdBasis3 k) (specVn o.2 o.1) + outer3 (specVn o.2 o.1) (stdBasis3 k))
          * (specSMat ncs poses)⁻¹).mulVec (specTVec ncs poses)
        - ((specSMat ncs poses)⁻¹
            * (outer3 (stdBasis3 k) (specVn o.2 o.1)
                + outer3 (specVn o.2 o.1) (stdBasis3 k))).mulVec o.2.p) r)
    * ((norm3 (o.2.R.transpose.mulVec (lift2 o.1)))⁻¹
        • ((1 : Mat3) - outer3 (specVn o.2 o.1) (specVn o.2 o.1)))
    * (Matrix.of fun r k => ((o.2.dR_dq k).transpose.mulVec (lift2 o.1)) r)

/-! ## Concrete inputs used by counterexamples, failing inputs and witnesses -/

/-- A zero stereo observation (used only where the coordinate values are
irrelevant to the claim under test). -/
def ncZero : NC2 := ((0, 0), (0, 0))

/-- A track point at frame `n` with zero coordinates. -/
def ptAt (n : ℕ) : TrackedPoint := ⟨n, ncZero⟩

/-- Identity pose: `R = I`, `p = 0`, zero quaternion derivatives. -/
def poseId : KalmanFilterPose := ⟨1, 0, fun _ => 0⟩

/-- Pose with ray row `(0,0,1)`, used by the linearizer failing input
(camera 0 of the single retained frame). -/
def poseA5 : KalmanFilterPose := ⟨!![0,0,1; 0,1,0; 0,0,1], 0, fun _ => 0⟩

/-- Pose with ray row `(1,0,0)` and position `(7,0,5)`, used by the
linearizer failing input (camera 1 of the single retained frame). -/
def poseB5 : KalmanFilterPose := ⟨!![1,0,0; 0,1,0; -1,0,0], ![7,0,5], fun _ => 0⟩

/-- Like `poseA5` but reflected so the triangulated point falls behind the
camera (used by the behind-camera witness). -/
def poseA9 : KalmanFilterPose := ⟨!![0,0,1; 0,1,0; 0,0,-1], 0, fun _ => 0⟩

/-- Filter stub serving the stereo pose pair `(poseA5, poseB5)` with a 7-column
state layout. -/
def kf5 : KalmanFilter :=
  ⟨fun _ => some [(poseA5, poseB5)], 7, fun _ => 0, fun _ => 3⟩

/-- Filter stub serving the stereo pose pair `(poseA9, poseB5)`. -/
def kf9 : KalmanFilter :=
  ⟨fun _ => some [(poseA9, poseB5)], 7, fun _ => 0, fun _ => 3⟩

/-- Filter stub whose pose-trail query always reports failure. -/
def kfFail : KalmanFilter := ⟨fun _ => none, 0, fun _ => 0, fun _ => 0⟩

/-- Filter stub returning an empty pose list (used with an empty track). -/
def kfEmpty : KalmanFilter := ⟨fun _ => some [], 0, fun _ => 0, fun _ => 0⟩

/-- The single-point track observed at frame 5 with unit-norm coordinates
`(1, 0)` in both cameras. -/
def track5 : Track := ⟨[⟨5, ((1, 0), (1, 0))⟩]⟩

/-- The empty track. -/
def trackEmpty : Track := ⟨[]⟩

/-! ## Helper lemmas for the track aligner -/

lemma pairwise_lt_get? {w : List ℕ} (hw : List.Pairwise (· < ·) w)
    {j k x y : ℕ} (hjk : j < k) (hx : w.get? j = some x) (hy : w.get? k = some y) :
    x < y := by
  obtain ⟨hj, rfl⟩ := List.get?_eq_some.mp hx
  obtain ⟨hk, rfl⟩ := List.get?_eq_some.mp hy
  exact List.pairwise_iff_get.mp hw ⟨j, hj⟩ ⟨k, hk⟩ hjk

lemma advanceIdx_ge (w : List ℕ) (f i : ℕ) : i ≤ advanceIdx w f i := by
  induction i using advanceIdx.induct (w := w) (f := f) with
  | case1 x h hlt ih =>
    rw [advanceIdx]
    simp only [dif_pos h, if_pos hlt]
    omega
  | case2 x h hge =>
    rw [advanceIdx]
    simp only [dif_pos h, if_neg hge]
    exact le_rfl
  | case3 x h =>
    rw [advanceIdx]
    simp only [dif_neg h]
    exact le_rfl

lemma advanceIdx_le (w : List ℕ) (f i : ℕ) :
    i ≤ w.length → advanceIdx w f i ≤ w.length := by
  induction i using advanceIdx.induct (w := w) (f := f) with
  | case1 x h hlt ih =>
    intro _
    rw [advanceIdx]
    simp only [dif_pos h, if_pos hlt]
    exact ih (by omega)
  | case2 x h hge =>
    intro hx
    rw [advanceIdx]
    simp only [dif_pos h, if_neg hge]
    exact hx
  | case3 x h =>
    intro hx
    rw [advanceIdx]
    simp only [dif_neg h]
    exact hx

lemma advanceIdx_skipped (w : List ℕ) (f i : ℕ) :
    ∀ j y, i ≤ j → j < advanceIdx w f i → w.get? j = some y → y < f := by
  induction i using advanceIdx.induct (w := w) (f := f) with
  | case1 x h hlt ih =>
    intro j y hij hlt2 hy
    rw [advanceIdx, dif_pos h, if_pos hlt] at hlt2
    rcases Nat.eq_or_lt_of_le hij with rfl | hgt
    · rw [List.get?_eq_get h] at hy
      exact (Option.some_inj.mp hy) ▸ hlt
    · exact ih j y hgt hlt2 hy
  | case2 x h hge =>
    intro j y hij hlt2 hy
    rw [advanceIdx, dif_pos h, if_neg hge] at hlt2
    omega
  | case3 x h =>
    intro j y hij hlt2 hy
    rw [advanceIdx, dif_neg h] at hlt2
    omega

lemma advanceIdx_stop (w : List ℕ) (f i : ℕ) :
    ∀ y, w.get? (advanceIdx w f i) = some y → ¬ y < f := by
  induction i using advanceIdx.induct (w := w) (f := f) with
  | case1 x h hlt ih =>
    intro y hy
    rw [advanceIdx, dif_pos h, if_pos hlt] at hy
    exact ih y hy
  | case2 x h hge =>
    intro y hy
    rw [advanceIdx, dif_pos h, if_neg hge] at hy
    rw [List.get?_eq_get h] at hy
    exact (Option.some_inj.mp hy) ▸ hge
  | case3 x h =>
    intro y hy
    rw [advanceIdx, dif_neg h] at hy
    rw [List.get?_eq_none.mpr (by omega)] at hy
    exact absurd hy (by simp)

lemma findIdx?_eq_some_first {w : List ℕ} {p : ℕ → Bool} :
    ∀ {i x : ℕ}, w.get? i = some x → p x = true →
      (∀ j y, j < i → w.get? j = some y → p y = false) →
      w.findIdx? p = some i := by
  induction w with
  | nil => intro i x hx _ _; simp at hx
  | cons a l ih =>
    intro i x hx hpx hmin
    match i with
    | 0 =>
      simp only [List.get?_cons_zero, Option.some_inj] at hx
      subst hx
      simp [List.findIdx?_cons, hpx]
    | i + 1 =>
      have hpa : p a = false := hmin 0 a (by omega) rfl
      simp only [List.get?_cons_succ] at hx
      have hrec := ih hx hpx (fun j y hj hy => hmin (j + 1) y (by omega) (by simpa using hy))
      simp [List.findIdx?_cons, hpa, List.findIdx?_succ, hrec]

lemma alignLoop_spec (w : List ℕ) (hw : List.Pairwise (· < ·) w) :
    ∀ (pts : List TrackedPoint) (i : ℕ),
      List.Pairwise (fun a b => a.frame_number ≤ b.frame_number) pts →
      (∀ pt ∈ pts, ∃ x ∈ w, pt.frame_number ≤ x) →
      (∀ j y, j < i → w.get? j = some y → ∀ pt ∈ pts, y < pt.frame_number) →
      alignLoop w pts i =
        .ok ((specAlignPairs w pts).map Prod.fst,
             (specAlignPairs w pts).map Prod.snd) := by
  intro pts
  induction pts with
  | nil =>
    intro i _ _ _
    simp [alignLoop, specAlignPairs]
  | cons pt rest ih =>
    intro i hsort hle hinv
    obtain ⟨hhead, htail⟩ := List.pairwise_cons.mp hsort
    have hle' : ∀ pt' ∈ rest, ∃ x ∈ w, pt'.frame_number ≤ x :=
      fun pt' h => hle pt' (List.mem_cons_of_mem _ h)
    obtain ⟨xw, hxw, hfxw⟩ := hle pt (List.mem_cons_self _ _)
    obtain ⟨jx, hjx⟩ := List.get?_of_mem hxw
    obtain ⟨hjxlen, -⟩ := List.get?_eq_some.mp hjx
    have hjxi : i ≤ jx := by
      by_contra hh
      have := hinv jx xw (by omega) hjx pt (List.mem_cons_self _ _)
      omega
    have hi : i < w.length := by omega
    have hgi : w.get? i = some (w.get ⟨i, hi⟩) := List.get?_eq_get hi
    by_cases hc : pt.frame_number < w.get ⟨i, hi⟩
    · -- skip this point: no retained pose for it (line 52 `continue`)
      have hnotin : ∀ x ∈ w, (x == pt.frame_number) = false := by
        intro x hx
        obtain ⟨j, hj⟩ := List.get?_of_mem hx
        simp only [beq_eq_false_iff_ne]
        rcases lt_or_ge j i with hji | hji
        · have := hinv j x hji hj pt (List.mem_cons_self _ _)
          omega
        · rcases Nat.eq_or_lt_of_le hji with rfl | hlt2
          · rw [hgi] at hj
            have := Option.some_inj.mp hj
            omega
          · have := pairwise_lt_get? hw hlt2 hgi hj
            omega
      have hspec : specAlignPairs w (pt :: rest) = specAlignPairs w rest := by
        simp [specAlignPairs, List.findIdx?_eq_none_iff.mpr hnotin]
      have hinv' : ∀ j y, j < i → w.get? j = some y →
          ∀ pt' ∈ rest, y < pt'.frame_number :=
        fun j y hj hy pt' h => hinv j y hj hy pt' (List.mem_cons_of_mem _ h)
      calc alignLoop w (pt :: rest) i = alignLoop w rest i := by
            simp only [alignLoop, hgi, hc, if_true]
        _ = _ := by rw [ih i htail hle' hinv', hspec]
    · -- advance the window pointer (lines 53-55)
      have hii2 : i ≤ advanceIdx w pt.frame_number i := advanceIdx_ge w _ i
      have hi2len : advanceIdx w pt.frame_number i ≤ w.length :=
        advanceIdx_le w _ i (le_of_lt hi)
      have hi2lt : advanceIdx w pt.frame_number i < w.length := by
        rcases Nat.eq_or_lt_of_le hi2len with heq | h
        · exfalso
          have := advanceIdx_skipped w pt.frame_number i jx xw hjxi (by omega) hjx
          omega
        · exact h
      have hgi2 : w.get? (advanceIdx w pt.frame_number i) =
          some (w.get ⟨advanceIdx w pt.frame_number i, hi2lt⟩) := List.get?_eq_get hi2lt
      have hstop : ¬ w.get ⟨advanceIdx w pt.frame_number i, hi2lt⟩ < pt.frame_number :=
        advanceIdx_stop w _ i _ hgi2
      have hinv2 : ∀ j y, j < advanceIdx w pt.frame_number i → w.get? j = some y →
          ∀ pt' ∈ rest, y < pt'.frame_number := by
        intro j y hj hy pt' hpt'
        have hf' : pt.frame_number ≤ pt'.frame_number := hhead pt' hpt'
        rcases lt_or_ge j i with hji | hji
        · have := hinv j y hji hy pt (List.mem_cons_self _ _)
          omega
        · have := advanceIdx_skipped w pt.frame_number i j y hji hj hy
          omega
      by_cases heq : w.get ⟨advanceIdx w pt.frame_number i, hi2lt⟩ = pt.frame_number
      · -- exact match: record the pair (lines 56-60)
        have hfind : w.findIdx? (fun x => x == pt.frame_number) =
            some (advanceIdx w pt.frame_number i) := by
          apply findIdx?_eq_some_first hgi2 (by simp only [beq_iff_eq]; exact heq)
          intro j y hj hy
          simp only [beq_eq_false_iff_ne]
          rcases lt_or_ge j i with hji | hji
          · have := hinv j y hji hy pt (List.mem_cons_self _ _)
            omega
          · have := advanceIdx_skipped w pt.frame_number i j y hji hj hy
            omega
        have hspec : specAlignPairs w (pt :: rest) =
            (w.length - 1 - advanceIdx w pt.frame_number i,
              pt.normalized_coordinates) :: specAlignPairs w rest := by
          simp [specAlignPairs, hfind]
        have hsub : w.length - advanceIdx w pt.frame_number i - 1 =
            w.length - 1 - advanceIdx w pt.frame_number i := by omega
        simp only [alignLoop, hgi, hc, if_false, hgi2, heq, if_true,
          ih _ htail hle' hinv2, hspec, List.map_cons, hsub]
      · -- the window entry is strictly newer: drop the point
        have hnotin : ∀ x ∈ w, (x == pt.frame_number) = false := by
          intro x hx
          obtain ⟨j, hj⟩ := List.get?_of_mem hx
          simp only [beq_eq_false_iff_ne]
          rcases lt_or_ge j i with hji | hji
          · have := hinv j x hji hj pt (List.mem_cons_self _ _)
            omega
          · rcases lt_or_ge j (advanceIdx w pt.frame_number i) with hji2 | hji2
            · have := advanceIdx_skipped w pt.frame_number i j x hji hji2 hj
              omega
            · rcases Nat.eq_or_lt_of_le hji2 with heq2 | hlt2
              · subst heq2
                rw [hgi2] at hj
                have := Option.some_inj.mp hj
                omega
              · have := pairwise_lt_get? hw hlt2 hgi2 hj
                omega
        have hspec : specAlignPairs w (pt :: rest) = specAlignPairs w rest := by
          simp [specAlignPairs, List.findIdx?_eq_none_iff.mpr hnotin]
        simp only [alignLoop, hgi, hc, if_false, hgi2, heq, ite_false,
          ih _ htail hle' hinv2, hspec]

/-! ## C1: the projection Jacobian -/

/-- C1 (code_bug): the claim states that the 2 x 3 projection Jacobian built
by the measurement linearizer equals `[[1/z, 0, -x/z^2], [0, 1/z, -y/z^2]]`,
the exact derivative of `hnormalize`.  At `ac = (1, 1, 2)` the code instead
builds entry `(0, 2) = -x/z = -1/2`, while the exact derivative — witnessed by
`deriv (fun s => 1/s) 2 = -1/4`, the partial derivative of `x/z` in `z` at
`(x, z) = (1, 2)` — is `-1/4`: the code divides by `z` instead of `z^2`. -/
theorem d_normalized_ac_code_bug :
    d_normalized_ac ![1, 1, 2] 0 2 = -(1 / 2) ∧
    specProjJacobian ![1, 1, 2] 0 2 = -(1 / 4) ∧
    deriv (fun s : ℝ => 1 / s) 2 = -(1 / 4) ∧
    d_normalized_ac ![1, 1, 2] ≠ specProjJacobian ![1, 1, 2] := by
  refine ⟨by norm_num [d_normalized_ac], by norm_num [specProjJacobian], ?_, ?_⟩
  · simp only [one_div, deriv_inv]
    norm_num
  · intro h
    have h02 := congrFun (congrFun h 0) 2
    rw [d_normalized_ac, specProjJacobian] at h02
    norm_num at h02

/-! ## C4 and C7: the track aligner -/

/-- C7 (code_bug): the claim states the merge loop stops once the pointer
reaches the window length, without out-of-range access.  With window `[5]` and
a single track point at frame `6`, the inner `while` advances the pointer to
`1 = len`, and line 56 then reads `pose_trail_frame_numbers[1]` — out of
range — before the `break` of line 61 can fire: the loop faults instead of
stopping. -/
theorem align_window_overrun_fault :
    alignLoop [5] [ptAt 6] 0 = .fault .windowIndex := by
  have a1 : advanceIdx [5] 6 1 = 1 := by
    rw [advanceIdx]
    norm_num
  have a0 : advanceIdx [5] 6 0 = 1 := by
    rw [advanceIdx]
    norm_num [a1]
  simp [alignLoop, ptAt, a0]

/-- C4 counterexample: for the sorted track `{5, 11}` and window `{5, 7, 9}`
the claim demands the aligner produce the parallel lists selecting frame 5 at
slot 2; the code instead faults on an out-of-range window access while
processing the point at frame 11. -/
theorem aligner_counterexample :
    alignLoop [5, 7, 9] [ptAt 5, ptAt 11] 0 = .fault .windowIndex ∧
    (specAlignPairs [5, 7, 9] [ptAt 5, ptAt 11]).map Prod.fst = [2] ∧
    alignLoop [5, 7, 9] [ptAt 5, ptAt 11] 0 ≠
      .ok ((specAlignPairs [5, 7, 9] [ptAt 5, ptAt 11]).map Prod.fst,
           (specAlignPairs [5, 7, 9] [ptAt 5, ptAt 11]).map Prod.snd) := by
  have a50 : advanceIdx [5, 7, 9] 5 0 = 0 := by
    rw [advanceIdx]
    norm_num
  have a113 : advanceIdx [5, 7, 9] 11 3 = 3 := by
    rw [advanceIdx]
    norm_num
  have a112 : advanceIdx [5, 7, 9] 11 2 = 3 := by
    rw [advanceIdx]
    norm_num [a113]
  have a111 : advanceIdx [5, 7, 9] 11 1 = 3 := by
    rw [advanceIdx]
    norm_num [a112]
  have a110 : advanceIdx [5, 7, 9] 11 0 = 3 := by
    rw [advanceIdx]
    norm_num [a111]
  have hfault : alignLoop [5, 7, 9] [ptAt 5, ptAt 11] 0 = .fault .windowIndex := by
    simp [alignLoop, ptAt, a50, a110]
  refine ⟨hfault, ?_, ?_⟩
  · norm_num [specAlignPairs, ptAt, List.findIdx?_cons, List.filterMap_cons]
  · intro h
    rw [hfault] at h
    exact absurd h (by simp)

/-- C4 (corrected, amended): for every track sorted ascending by frame number
and strictly ascending pose-trail window, provided additionally that every
track frame number is at most some retained window frame number (otherwise the
aligner faults, see the counterexample), the aligner produces the two parallel
lists containing exactly the observations whose frame number equals a retained
window entry, in order, with matching window index `j` mapped to filter-state
slot `N - 1 - j`. -/
theorem aligner_correct (w : List ℕ) (pts : List TrackedPoint)
    (hw : List.Pairwise (· < ·) w)
    (hsort : List.Pairwise (fun a b => a.frame_number ≤ b.frame_number) pts)
    (hle : ∀ pt ∈ pts, ∃ x ∈ w, pt.frame_number ≤ x) :
    alignLoop w pts 0 =
      .ok ((specAlignPairs w pts).map Prod.fst,
           (specAlignPairs w pts).map Prod.snd) :=
  alignLoop_spec w hw pts 0 hsort hle (fun j _ hj _ => absurd hj (by omega))

/-- C4 witness: the specs own example — track frames `{3, 5, 7, 9}`, window
`{5, 7, 9}` — selects frames 5, 7, 9 at filter-state slots `2, 1, 0` and drops
frame 3. -/
theorem aligner_correct_witness :
    (List.Pairwise (· < ·) [5, 7, 9] ∧
     List.Pairwise (fun a b => a.frame_number ≤ b.frame_number)
       [ptAt 3, ptAt 5, ptAt 7, ptAt 9] ∧
     ∀ pt ∈ [ptAt 3, ptAt 5, ptAt 7, ptAt 9], ∃ x ∈ [5, 7, 9], pt.frame_number ≤ x) ∧
    alignLoop [5, 7, 9] [ptAt 3, ptAt 5, ptAt 7, ptAt 9] 0 =
      .ok ([2, 1, 0], [ncZero, ncZero, ncZero]) := by
  refine ⟨⟨?_, ?_, ?_⟩, ?_⟩
  · decide
  · simp [ptAt]
  · intro pt hpt
    fin_cases hpt <;> simp [ptAt]
  · rw [aligner_correct _ _ (by decide) (by simp [ptAt])
      (by intro pt hpt; fin_cases hpt <;> simp [ptAt])]
    norm_num [specAlignPairs, ptAt, List.findIdx?_cons, List.filterMap_cons]

/-! ## Helper lemmas for the triangulator: for orthogonal `R` the codes
ray `transpose(R) * normalize(v)` equals the specs `normalize(transpose(R) * v)` -/

lemma norm3_transpose_mulVec (R : Mat3) (h : R * R.transpose = 1) (v : Vec3) :
    norm3 (R.transpose.mulVec v) = norm3 v := by
  have e : ∀ a b : Fin 3,
      R a 0 * R b 0 + R a 1 * R b 1 + R a 2 * R b 2 = if a = b then 1 else 0 := by
    intro a b
    have hab := congrFun (congrFun h a) b
    simpa [Matrix.mul_apply, Fin.sum_univ_three, Matrix.one_apply,
      Matrix.transpose_apply] using hab
  have e00 := e 0 0
  have e01 := e 0 1
  have e02 := e 0 2
  have e11 := e 1 1
  have e12 := e 1 2
  have e22 := e 2 2
  rw [if_pos rfl] at e00 e11 e22
  rw [if_neg (by decide)] at e01 e02 e12
  unfold norm3
  congr 1
  simp only [Matrix.mulVec, Matrix.dotProduct, Matrix.transpose_apply,
    Fin.sum_univ_three]
  linear_combination (v 0) ^ 2 * e00 + 2 * v 0 * v 1 * e01 + 2 * v 0 * v 2 * e02
    + (v 1) ^ 2 * e11 + 2 * v 1 * v 2 * e12 + (v 2) ^ 2 * e22

lemma normalize3_smul (v : Vec3) : normalize3 v = (norm3 v)⁻¹ • v := by
  funext i
  simp [normalize3, div_eq_inv_mul]

lemma triVn_eq_specVn (pose : KalmanFilterPose) (ip : Vec2)
    (h : pose.R * pose.R.transpose = 1) : triVn pose ip = specVn pose ip := by
  unfold triVn specVn
  rw [normalize3_smul, Matrix.mulVec_smul, normalize3_smul,
    norm3_transpose_mulVec pose.R h]

lemma triS_eq_specS (ncs : List NC2) (poses : List PosePair)
    (horth : ∀ o ∈ camObs ncs poses, o.2.R * o.2.R.transpose = 1) :
    triS ncs poses = specSMat ncs poses := by
  unfold triS specSMat
  congr 1
  apply List.map_congr_left
  intro o ho
  rw [triVn_eq_specVn o.2 o.1 (horth o ho)]

lemma triT_eq_specT (ncs : List NC2) (poses : List PosePair)
    (horth : ∀ o ∈ camObs ncs poses, o.2.R * o.2.R.transpose = 1) :
    triT ncs poses = specTVec ncs poses := by
  unfold triT specTVec
  congr 1
  apply List.map_congr_left
  intro o ho
  rw [triVn_eq_specVn o.2 o.1 (horth o ho)]

lemma triangulate_eq_some (ncs : List NC2) (poses : List PosePair)
    (hS : IsUnit (triS ncs poses).det) :
    triangulate ncs poses = some
      { a := (triS ncs poses)⁻¹.mulVec (triT ncs poses)
        da_dp := (camObs ncs poses).map (daDpEntry (triS ncs poses)⁻¹)
        da_dq := (camObs ncs poses).map
          (daDqEntry (triS ncs poses)⁻¹ (triT ncs poses)) } := by
  unfold triangulate
  rw [if_pos hS]

lemma triangulate_eq_none (ncs : List NC2) (poses : List PosePair)
    (hS : ¬ IsUnit (triS ncs poses).det) : triangulate ncs poses = none := by
  unfold triangulate
  rw [if_neg hS]

lemma camObs_length : ∀ (ncs : List NC2) (poses : List PosePair),
    ncs.length = poses.length → (camObs ncs poses).length = 2 * ncs.length := by
  intro ncs
  induction ncs with
  | nil =>
    intro poses _
    cases poses <;> simp [camObs]
  | cons nc ncst ih =>
    intro poses h
    cases poses with
    | nil => simp at h
    | cons pp pps =>
      simp only [camObs, List.length_cons, ih pps (by simpa using h)]
      omega

/-! ## C2 and C3: the triangulator against the spec formulas -/

/-- C2 (confirmed): whenever the accumulated system matrix is invertible,
`triangulate` returns the point `a = inverse(S) * t` with
`S = sum (I - vn vn^t)` and `t = sum (I - vn vn^t) p` over all `2m` camera
observations and `vn = normalize(transpose(R) * (x, y, 0))`, exactly as the
spec states.  The hypothesis that each `R` is orthogonal is the data-model
invariant (`R` is a rotation); it identifies the codes
`transpose(R) * normalize(v)` with the specs `normalize(transpose(R) * v)`. -/
theorem triangulate_point_eq_spec (ncs : List NC2) (poses : List PosePair)
    (hlen : ncs.length = poses.length)
    (horth : ∀ o ∈ camObs ncs poses, o.2.R * o.2.R.transpose = 1)
    (hS : IsUnit (specSMat ncs poses).det) :
    ∃ out, triangulate ncs poses = some out ∧
      out.a = (specSMat ncs poses)⁻¹.mulVec (specTVec ncs poses) := by
  have hSeq := triS_eq_specS ncs poses horth
  have hTeq := triT_eq_specT ncs poses horth
  refine ⟨_, triangulate_eq_some ncs poses (by rw [hSeq]; exact hS), ?_⟩
  rw [hSeq, hTeq]

/-- C3 (confirmed): on success, the derivative arrays contain one entry per
camera observation (`2m` of them, aligned with the observation order), and
they satisfy the spec formulas: `da/dp_i = inverse(S) * (I - vn_i vn_i^t)` and
`da/dq_i = da/dvn * dvn/dv * dv/dq_i` with the spec `S`, `t`, `Q_k`,
`dvn/dv = (I - vn vn^t)/norm(v)` and `dv/dq_k = transpose(dR/dq_k) * (x,y,0)`.
Orthogonality of each `R` (data-model rotation invariant) identifies the
code-accumulated `S`, `t` with the spec ones. -/
theorem triangulate_derivatives_eq_spec (ncs : List NC2) (poses : List PosePair)
    (hlen : ncs.length = poses.length)
    (horth : ∀ o ∈ camObs ncs poses, o.2.R * o.2.R.transpose = 1)
    (hS : IsUnit (specSMat ncs poses).det) :
    ∃ out, triangulate ncs poses = some out ∧
      out.da_dp = specDaDp ncs poses ∧
      out.da_dq = specDaDq ncs poses ∧
      out.da_dp.length = 2 * ncs.length ∧
      out.da_dq.length = 2 * ncs.length := by
  have hSeq := triS_eq_specS ncs poses horth
  have hTeq := triT_eq_specT ncs poses horth
  refine ⟨_, triangulate_eq_some ncs poses (by rw [hSeq]; exact hS), ?_, ?_, ?_, ?_⟩
  · simp only [specDaDp, hSeq]
    exact List.map_congr_left fun o _ => rfl
  · simp only [specDaDq, hSeq, hTeq]
    exact List.map_congr_left fun o _ => rfl
  · simp [camObs_length ncs poses hlen]
  · simp [camObs_length ncs poses hlen]

lemma specVn_poseId_10 : specVn poseId (1, 0) = ![1, 0, 0] := by
  unfold specVn poseId
  simp only [Matrix.transpose_one, Matrix.one_mulVec]
  rw [show lift2 (1, 0) = ![(1 : ℝ), 0, 0] from rfl]
  have hn : norm3 ![(1 : ℝ), 0, 0] = 1 := by
    unfold norm3
    norm_num [Matrix.cons_val_zero, Matrix.cons_val_one, Matrix.head_cons,
      Matrix.cons_val_two, Matrix.tail_cons, Real.sqrt_one]
  funext i
  simp [normalize3, hn]

lemma specVn_poseId_01 : specVn poseId (0, 1) = ![0, 1, 0] := by
  unfold specVn poseId
  simp only [Matrix.transpose_one, Matrix.one_mulVec]
  rw [show lift2 (0, 1) = ![(0 : ℝ), 1, 0] from rfl]
  have hn : norm3 ![(0 : ℝ), 1, 0] = 1 := by
    unfold norm3
    norm_num [Matrix.cons_val_zero, Matrix.cons_val_one, Matrix.head_cons,
      Matrix.cons_val_two, Matrix.tail_cons, Real.sqrt_one]
  funext i
  simp [normalize3, hn]

lemma horth_ex : ∀ o ∈ camObs [((1, 0), (0, 1))] [(poseId, poseId)],
    o.2.R * o.2.R.transpose = 1 := by
  intro o ho
  simp only [camObs, List.mem_cons, List.not_mem_nil, or_false] at ho
  rcases ho with rfl | rfl <;> simp [poseId]

lemma specS_ex :
    specSMat [((1, 0), (0, 1))] [(poseId, poseId)] = !![1,0,0; 0,1,0; 0,0,2] := by
  unfold specSMat
  simp only [camObs, List.map_cons, List.map_nil, List.sum_cons, List.sum_nil,
    add_zero, specVn_poseId_10, specVn_poseId_01]
  ext i j
  fin_cases i <;> fin_cases j <;>
    norm_num [outer3, Matrix.vecMulVec_apply, Matrix.one_apply, Matrix.sub_apply,
      Matrix.add_apply, Matrix.vecHead, Matrix.vecTail] <;> decide

lemma specS_ex_det : IsUnit (specSMat [((1, 0), (0, 1))] [(poseId, poseId)]).det := by
  rw [specS_ex, isUnit_iff_ne_zero, Matrix.det_fin_three]
  norm_num

/-- C2 witness: a concrete stereo observation with identity rotations and
axis-aligned rays; the system matrix is `diag(1, 1, 2)`, invertible. -/
theorem triangulate_point_eq_spec_witness :
    (([((1, 0), (0, 1))] : List NC2).length = [(poseId, poseId)].length ∧
     (∀ o ∈ camObs [((1, 0), (0, 1))] [(poseId, poseId)],
        o.2.R * o.2.R.transpose = 1) ∧
     IsUnit (specSMat [((1, 0), (0, 1))] [(poseId, poseId)]).det) ∧
    (∃ out, triangulate [((1, 0), (0, 1))] [(poseId, poseId)] = some out ∧
      out.a = (specSMat [((1, 0), (0, 1))] [(poseId, poseId)])⁻¹.mulVec
        (specTVec [((1, 0), (0, 1))] [(poseId, poseId)])) :=
  ⟨⟨rfl, horth_ex, specS_ex_det⟩,
    triangulate_point_eq_spec _ _ rfl horth_ex specS_ex_det⟩

/-- C3 witness: the same concrete observation; the derivative arrays equal the
spec formulas and have one entry per camera observation. -/
theorem triangulate_derivatives_eq_spec_witness :
    (([((1, 0), (0, 1))] : List NC2).length = [(poseId, poseId)].length ∧
     (∀ o ∈ camObs [((1, 0), (0, 1))] [(poseId, poseId)],
        o.2.R * o.2.R.transpose = 1) ∧
     IsUnit (specSMat [((1, 0), (0, 1))] [(poseId, poseId)]).det) ∧
    (∃ out, triangulate [((1, 0), (0, 1))] [(poseId, poseId)] = some out ∧
      out.da_dp = specDaDp [((1, 0), (0, 1))] [(poseId, poseId)] ∧
      out.da_dq = specDaDq [((1, 0), (0, 1))] [(poseId, poseId)] ∧
      out.da_dp.length = 2 * ([((1, 0), (0, 1))] : List NC2).length ∧
      out.da_dq.length = 2 * ([((1, 0), (0, 1))] : List NC2).length) :=
  ⟨⟨rfl, horth_ex, specS_ex_det⟩,
    triangulate_derivatives_eq_spec _ _ rfl horth_ex specS_ex_det⟩

/-! ## C8: triangulation failure handling -/

/-- C8 (confirmed): `triangulate` returns failure exactly when the accumulated
system matrix `S` is singular (`S.try_inverse()` has no result), and on such a
failure `VisualUpdate::process` skips the calling track — contributing nothing
for it — and continues with the remaining tracks.  In the real-arithmetic
embedding no NaN exists; failure is the absence of a result. -/
theorem triangulate_failure_iff_singular (ncs : List NC2) (poses : List PosePair) :
    (triangulate ncs poses = none ↔ (triS ncs poses).det = 0) ∧
    (∀ (kf : KalmanFilter) (w : List ℕ) (t : Track) (ts : List Track)
        (inds : List ℕ),
      alignLoop w t.points 0 = .ok (inds, ncs) →
      kf.get_camera_pose_trail inds = some poses →
      (triS ncs poses).det = 0 →
      processTrack kf w t = .skip ∧
      processTracks kf w (t :: ts) =
        (processTracks kf w ts).map fun rs => none :: rs) := by
  constructor
  · constructor
    · intro h
      by_contra hdet
      rw [triangulate_eq_some ncs poses (isUnit_iff_ne_zero.mpr hdet)] at h
      exact absurd h (by simp)
    · intro h
      exact triangulate_eq_none ncs poses (by simp [isUnit_iff_ne_zero, h])
  · intro kf w t ts inds ha hp hdet
    have hskip : processTrack kf w t = .skip := by
      simp only [processTrack, ha, hp,
        triangulate_eq_none ncs poses (by simp [isUnit_iff_ne_zero, hdet])]
    refine ⟨hskip, ?_⟩
    simp only [processTracks, hskip]

/-- C8 witness: the empty observation set accumulates `S = 0`, which is
singular; the track is skipped and processing continues. -/
theorem triangulate_failure_iff_singular_witness :
    (alignLoop [] trackEmpty.points 0 = .ok ([], []) ∧
     kfEmpty.get_camera_pose_trail [] = some [] ∧
     (triS [] []).det = 0) ∧
    (processTrack kfEmpty [] trackEmpty = .skip ∧
     processTracks kfEmpty [] [trackEmpty] =
       (processTracks kfEmpty [] []).map fun rs => none :: rs) := by
  have hdet : (triS ([] : List NC2) ([] : List PosePair)).det = 0 := by
    unfold triS camObs
    simp only [List.map_nil, List.sum_nil]
    exact Matrix.det_zero ⟨(0 : Fin 3)⟩
  exact ⟨⟨rfl, rfl, hdet⟩,
    (triangulate_failure_iff_singular [] []).2 kfEmpty [] trackEmpty [] [] rfl rfl hdet⟩

/-! ## Helper lemmas for the measurement linearizer -/

lemma hnormalize_pos (v : Vec3) (h : 0 < v 2) :
    hnormalize v = some (v 0 / v 2, v 1 / v 2) := by
  unfold hnormalize
  rw [if_pos h]

lemma VecR.write_some (v : VecR) (i : ℕ) (x : ℝ) (h : i < v.len) :
    ∃ v2, v.write i x = some v2 ∧ v2.len = v.len := by
  unfold VecR.write
  rw [if_pos h]
  exact ⟨_, rfl, rfl⟩

lemma VecR.write_none (v : VecR) (i : ℕ) (x : ℝ) (h : ¬ i < v.len) :
    v.write i x = none := by
  unfold VecR.write
  rw [if_neg h]

lemma MatR.writeBlock_some (M : MatR) (r c h wdt : ℕ) (f : ℕ → ℕ → ℝ)
    (hb : r + h ≤ M.rows ∧ c + wdt ≤ M.cols) :
    ∃ M2, M.writeBlock r c h wdt f = some M2 ∧
      M2.rows = M.rows ∧ M2.cols = M.cols := by
  unfold MatR.writeBlock
  rw [if_pos hb]
  exact ⟨_, rfl, rfl, rfl⟩

lemma writeOriBlocks_some (H : MatR) (row col : ℕ) (val : Fin 4 → Fin 2 → ℝ)
    (hr : row + 2 ≤ H.rows) (hc : col + 4 ≤ H.cols) :
    ∃ H4, writeOriBlocks H row col val = some H4 ∧
      H4.rows = H.rows ∧ H4.cols = H.cols := by
  obtain ⟨H0, e0, hr0, hc0⟩ := H.writeBlock_some row (col + 0) 2 1
    (fun r _ => if h : r < 2 then val 0 ⟨r, h⟩ else 0) ⟨hr, by omega⟩
  obtain ⟨H1, e1, hr1, hc1⟩ := H0.writeBlock_some row (col + 1) 2 1
    (fun r _ => if h : r < 2 then val 1 ⟨r, h⟩ else 0) ⟨by omega, by omega⟩
  obtain ⟨H2, e2, hr2, hc2⟩ := H1.writeBlock_some row (col + 2) 2 1
    (fun r _ => if h : r < 2 then val 2 ⟨r, h⟩ else 0) ⟨by omega, by omega⟩
  obtain ⟨H3, e3, hr3, hc3⟩ := H2.writeBlock_some row (col + 3) 2 1
    (fun r _ => if h : r < 2 then val 3 ⟨r, h⟩ else 0) ⟨by omega, by omega⟩
  refine ⟨H3, ?_, by omega, by omega⟩
  simp only [writeOriBlocks, e0, e1, e2]
  exact e3

lemma linLoop_step (aw : Vec3) (posInd oriInd : ℕ → ℕ) (i : ℕ)
    (pose : KalmanFilterPose) (rest : List (ℕ × KalmanFilterPose)) (row : ℕ)
    (y : VecR) (H : MatR)
    (hz : ¬ (pose.R.mulVec (aw - pose.p)) 2 ≤ 0)
    (hy : row + 2 ≤ y.len) (hH : row + 2 ≤ H.rows)
    (hcp : posInd i + 3 ≤ H.cols) (hco : oriInd i + 4 ≤ H.cols) :
    ∃ y2 H2, y2.len = y.len ∧ H2.rows = H.rows ∧ H2.cols = H.cols ∧
      linLoop aw posInd oriInd ((i, pose) :: rest) row y H =
        linLoop aw posInd oriInd rest (row + 1) y2 H2 := by
  have h0 : 0 < (pose.R.mulVec (aw - pose.p)) 2 := not_le.mp hz
  obtain ⟨y1, ey1, hl1⟩ := y.write_some row
    ((pose.R.mulVec (aw - pose.p)) 0 / (pose.R.mulVec (aw - pose.p)) 2) (by omega)
  obtain ⟨y2, ey2, hl2⟩ := y1.write_some (row + 1)
    ((pose.R.mulVec (aw - pose.p)) 1 / (pose.R.mulVec (aw - pose.p)) 2) (by omega)
  obtain ⟨H1, eH1, hr1, hc1⟩ := H.writeBlock_some row (posInd i) 2 3
    (entry23 (-(d_normalized_ac (pose.R.mulVec (aw - pose.p))) * pose.R)) ⟨hH, hcp⟩
  obtain ⟨H2, eH2, hr2, hc2⟩ := writeOriBlocks_some H1 row (oriInd i)
    (oriVals (d_normalized_ac (pose.R.mulVec (aw - pose.p))) pose (aw - pose.p))
    (by omega) (by omega)
  refine ⟨y2, H2, by omega, by omega, by omega, ?_⟩
  simp only [linLoop, hz, if_false, hnormalize_pos _ h0, ey1, ey2, eH1, eH2]

lemma linLoop_skip (aw : Vec3) (posInd oriInd : ℕ → ℕ) :
    ∀ (obs : List (ℕ × KalmanFilterPose)) (row : ℕ) (y : VecR) (H : MatR),
      row + obs.length ≤ y.len → row + obs.length ≤ H.rows →
      (∀ o ∈ obs, posInd o.1 + 3 ≤ H.cols ∧ oriInd o.1 + 4 ≤ H.cols) →
      (∃ o ∈ obs, (o.2.R.mulVec (aw - o.2.p)) 2 ≤ 0) →
      linLoop aw posInd oriInd obs row y H = .skip := by
  intro obs
  induction obs with
  | nil =>
    intro row y H _ _ _ hoff
    simp at hoff
  | cons o rest ih =>
    intro row y H hy hH hcols hoff
    obtain ⟨i, pose⟩ := o
    by_cases hz : (pose.R.mulVec (aw - pose.p)) 2 ≤ 0
    · simp only [linLoop, hz, if_true]
    · have hoff2 : ∃ o2 ∈ rest, (o2.2.R.mulVec (aw - o2.2.p)) 2 ≤ 0 := by
        rcases hoff with ⟨o2, ho2, hz2⟩
        rcases List.mem_cons.mp ho2 with rfl | hm
        · exact absurd hz2 hz
        · exact ⟨o2, hm, hz2⟩
      have hrest : 0 < rest.length := by
        rcases hoff2 with ⟨o2, ho2, -⟩
        exact List.length_pos.mpr (List.ne_nil_of_mem ho2)
      have hlen : (i, pose) :: rest ≠ [] := by simp
      obtain ⟨y2, H2, hl, hr, hc, hstep⟩ :=
        linLoop_step aw posInd oriInd i pose rest row y H hz
          (by simp only [List.length_cons] at hy; omega)
          (by simp only [List.length_cons] at hH; omega)
          (hcols (i, pose) (List.mem_cons_self _ _)).1
          (hcols (i, pose) (List.mem_cons_self _ _)).2
      rw [hstep]
      refine ih (row + 1) y2 H2 ?_ ?_ ?_ hoff2
      · simp only [List.length_cons] at hy
        omega
      · simp only [List.length_cons] at hH
        omega
      · intro o2 ho2
        rw [hc]
        exact hcols o2 (List.mem_cons_of_mem _ ho2)

lemma linLoop_last_fault (aw : Vec3) (posInd oriInd : ℕ → ℕ) (i : ℕ)
    (pose : KalmanFilterPose) (row : ℕ) (y : VecR) (H : MatR)
    (hz : ¬ (pose.R.mulVec (aw - pose.p)) 2 ≤ 0)
    (hy1 : row < y.len) (hy2 : ¬ row + 1 < y.len) :
    linLoop aw posInd oriInd [(i, pose)] row y H = .fault .yIndex := by
  have h0 : 0 < (pose.R.mulVec (aw - pose.p)) 2 := not_le.mp hz
  obtain ⟨y1, ey1, hl1⟩ := y.write_some row
    ((pose.R.mulVec (aw - pose.p)) 0 / (pose.R.mulVec (aw - pose.p)) 2) hy1
  have ey2 : y1.write (row + 1)
      ((pose.R.mulVec (aw - pose.p)) 1 / (pose.R.mulVec (aw - pose.p)) 2) = none :=
    y1.write_none _ _ (by omega)
  simp only [linLoop, hz, if_false, hnormalize_pos _ h0, ey1, ey2]

lemma linLoop_no_unwrap (aw : Vec3) (posInd oriInd : ℕ → ℕ) :
    ∀ (obs : List (ℕ × KalmanFilterPose)) (row : ℕ) (y : VecR) (H : MatR),
      linLoop aw posInd oriInd obs row y H ≠ .fault .unwrapHnorm := by
  intro obs
  induction obs with
  | nil =>
    intro row y H h
    simp [linLoop] at h
  | cons o rest ih =>
    intro row y H h
    obtain ⟨i, pose⟩ := o
    by_cases hz : (pose.R.mulVec (aw - pose.p)) 2 ≤ 0
    · simp only [linLoop, hz, if_true] at h
      exact absurd h (by simp)
    · have h0 : 0 < (pose.R.mulVec (aw - pose.p)) 2 := not_le.mp hz
      simp only [linLoop, hz, if_false, hnormalize_pos _ h0] at h
      split at h
      · exact absurd h (by simp)
      · split at h
        · exact absurd h (by simp)
        · split at h
          · exact absurd h (by simp)
          · split at h
            · exact absurd h (by simp)
            · exact ih _ _ _ h

lemma alignLoop_fault_site (w : List ℕ) :
    ∀ (pts : List TrackedPoint) (i : ℕ) (s : FaultSite),
      alignLoop w pts i = .fault s → s = .windowIndex := by
  intro pts
  induction pts with
  | nil =>
    intro i s h
    simp [alignLoop] at h
  | cons pt rest ih =>
    intro i s h
    rw [alignLoop] at h
    split at h
    · simp only [TrackStep.fault.injEq] at h
      exact h.symm
    · split at h
      · exact ih _ s h
      · split at h
        · simp only [TrackStep.fault.injEq] at h
          exact h.symm
        · split at h
          · split at h
            · exact absurd h (by simp)
            · rename_i hr2 hne
              cases hrec : alignLoop w rest (advanceIdx w pt.frame_number i) with
              | fault s2 =>
                rw [hrec] at h
                have hs2 := ih _ s2 hrec
                cases h
                exact hs2
              | skip =>
                rw [hrec] at h
                exact absurd h (by simp)
              | ok pr =>
                obtain ⟨inds, ncs⟩ := pr
                exact absurd hrec (hne inds ncs)
          · exact ih _ s h

lemma flattenPosesAux_length : ∀ (poses : List PosePair) (i : ℕ),
    (flattenPosesAux i poses).length = 2 * poses.length := by
  intro poses
  induction poses with
  | nil =>
    intro i
    simp [flattenPosesAux]
  | cons pp rest ih =>
    intro i
    simp only [flattenPosesAux, List.length_cons, ih, List.length_cons]
    omega

lemma processTrack_lin (kf : KalmanFilter) (w : List ℕ) (t : Track)
    (inds : List ℕ) (ncs : List NC2) (poses : List PosePair)
    (ha : alignLoop w t.points 0 = .ok (inds, ncs))
    (hp : kf.get_camera_pose_trail inds = some poses)
    (hS : IsUnit (triS ncs poses).det) :
    processTrack kf w t =
      linLoop ((triS ncs poses)⁻¹.mulVec (triT ncs poses))
        kf.get_camera_pos_ind kf.get_camera_ori_ind (flattenPoses poses) 0
        ⟨2 * poses.length, fun _ => 0⟩
        ⟨2 * poses.length, kf.get_camera_state_len, fun _ _ => 0⟩ := by
  simp only [processTrack, ha, hp, triangulate_eq_some ncs poses hS]

/-! ## C6 and C10: the per-track error paths of the linearizer -/

/-- C6 (code_bug): the claim (and spec section 7) says a pose-trail accessor
failure must be treated as recoverable — skip the track, do not abort.  The
code instead executes `assert!(success)` (line 69), which panics: with a
filter stub whose accessor reports failure, the track is not skipped but
faults, and the whole `process` call aborts, never reaching a second track. -/
theorem pose_trail_failure_aborts :
    processTrack kfFail [] trackEmpty = .fault .poseTrailAssert ∧
    processTrack kfFail [] trackEmpty ≠ .skip ∧
    processTracks kfFail [] [trackEmpty, trackEmpty] = none := by
  have h1 : processTrack kfFail [] trackEmpty = .fault .poseTrailAssert := rfl
  refine ⟨h1, ?_, ?_⟩
  · rw [h1]
    simp
  · simp only [processTracks, h1]

/-- C10 (confirmed): the `unwrap` of `hnormalize(ac)` at line 114 can never
panic: it is only reached after the `ac[2] <= 0` check of line 111 has passed,
and `hnormalize` (modelled from the spec) returns a value whenever
`ac.z > 0`, so the `None` branch of the unwrap is unreachable for every
filter, window and track. -/
theorem hnormalize_unwrap_safe (kf : KalmanFilter) (w : List ℕ) (t : Track) :
    processTrack kf w t ≠ .fault .unwrapHnorm := by
  intro h
  unfold processTrack at h
  split at h
  · rename_i s ha
    simp only [TrackStep.fault.injEq] at h
    subst h
    exact absurd (alignLoop_fault_site w t.points 0 _ ha) (by simp)
  · exact absurd h (by simp)
  · split at h
    · exact absurd h (by simp)
    · split at h
      · exact absurd h (by simp)
      · exact linLoop_no_unwrap _ _ _ _ _ _ _ h

/-! ## Concrete evaluations for the linearizer failing input and witness -/

lemma normalize3_e1 : normalize3 ![(1 : ℝ), 0, 0] = ![1, 0, 0] := by
  have hn : norm3 ![(1 : ℝ), 0, 0] = 1 := by
    unfold norm3
    norm_num [Matrix.cons_val_zero, Matrix.cons_val_one, Matrix.head_cons,
      Matrix.cons_val_two, Matrix.tail_cons, Real.sqrt_one]
  funext i
  simp [normalize3, hn]

lemma vnA5 : triVn poseA5 (1, 0) = ![0, 0, 1] := by
  unfold triVn poseA5
  rw [show lift2 (1, 0) = ![(1 : ℝ), 0, 0] from rfl, normalize3_e1]
  funext j
  fin_cases j <;>
    norm_num [Matrix.mulVec, Matrix.dotProduct, Matrix.transpose_apply,
      Fin.sum_univ_three, Matrix.cons_val_zero, Matrix.cons_val_one,
      Matrix.head_cons, Matrix.cons_val_two, Matrix.tail_cons,
      Matrix.vecHead, Matrix.vecTail]

lemma vnA9 : triVn poseA9 (1, 0) = ![0, 0, 1] := by
  unfold triVn poseA9
  rw [show lift2 (1, 0) = ![(1 : ℝ), 0, 0] from rfl, normalize3_e1]
  funext j
  fin_cases j <;>
    norm_num [Matrix.mulVec, Matrix.dotProduct, Matrix.transpose_apply,
      Fin.sum_univ_three, Matrix.cons_val_zero, Matrix.cons_val_one,
      Matrix.head_cons, Matrix.cons_val_two, Matrix.tail_cons,
      Matrix.vecHead, Matrix.vecTail]

lemma vnB5 : triVn poseB5 (1, 0) = ![1, 0, 0] := by
  unfold triVn poseB5
  rw [show lift2 (1, 0) = ![(1 : ℝ), 0, 0] from rfl, normalize3_e1]
  funext j
  fin_cases j <;>
    norm_num [Matrix.mulVec, Matrix.dotProduct, Matrix.transpose_apply,
      Fin.sum_univ_three, Matrix.cons_val_zero, Matrix.cons_val_one,
      Matrix.head_cons, Matrix.cons_val_two, Matrix.tail_cons,
      Matrix.vecHead, Matrix.vecTail]

lemma triS5_eval : triS [((1, 0), (1, 0))] [(poseA5, poseB5)] =
    !![1,0,0; 0,2,0; 0,0,1] := by
  unfold triS
  simp only [camObs, List.map_cons, List.map_nil, List.sum_cons, List.sum_nil,
    add_zero, vnA5, vnB5]
  ext i j
  fin_cases i <;> fin_cases j <;>
    norm_num [outer3, Matrix.vecMulVec_apply, Matrix.one_apply,
      Matrix.sub_apply, Matrix.add_apply, Matrix.vecHead, Matrix.vecTail] <;>
    decide

lemma triS9_eval : triS [((1, 0), (1, 0))] [(poseA9, poseB5)] =
    !![1,0,0; 0,2,0; 0,0,1] := by
  unfold triS
  simp only [camObs, List.map_cons, List.map_nil, List.sum_cons, List.sum_nil,
    add_zero, vnA9, vnB5]
  ext i j
  fin_cases i <;> fin_cases j <;>
    norm_num [outer3, Matrix.vecMulVec_apply, Matrix.one_apply,
      Matrix.sub_apply, Matrix.add_apply, Matrix.vecHead, Matrix.vecTail] <;>
    decide

lemma triT5_eval : triT [((1, 0), (1, 0))] [(poseA5, poseB5)] = ![0, 0, 5] := by
  unfold triT
  simp only [camObs, List.map_cons, List.map_nil, List.sum_cons, List.sum_nil,
    add_zero, vnA5, vnB5]
  funext i
  fin_cases i <;>
    norm_num [outer3, poseA5, poseB5, Matrix.mulVec, Matrix.dotProduct,
      Fin.sum_univ_three, Matrix.vecMulVec_apply, Matrix.one_apply,
      Matrix.sub_apply, Matrix.add_apply, Matrix.cons_val_zero,
      Matrix.cons_val_one, Matrix.head_cons, Matrix.cons_val_two,
      Matrix.tail_cons, Matrix.vecHead, Matrix.vecTail, Fin.ext_iff]

lemma triT9_eval : triT [((1, 0), (1, 0))] [(poseA9, poseB5)] = ![0, 0, 5] := by
  unfold triT
  simp only [camObs, List.map_cons, List.map_nil, List.sum_cons, List.sum_nil,
    add_zero, vnA9, vnB5]
  funext i
  fin_cases i <;>
    norm_num [outer3, poseA9, poseB5, Matrix.mulVec, Matrix.dotProduct,
      Fin.sum_univ_three, Matrix.vecMulVec_apply, Matrix.one_apply,
      Matrix.sub_apply, Matrix.add_apply, Matrix.cons_val_zero,
      Matrix.cons_val_one, Matrix.head_cons, Matrix.cons_val_two,
      Matrix.tail_cons, Matrix.vecHead, Matrix.vecTail, Fin.ext_iff]

lemma diagS_det : IsUnit ((!![1,0,0; 0,2,0; 0,0,1] : Mat3)).det := by
  rw [isUnit_iff_ne_zero, Matrix.det_fin_three]
  norm_num [Matrix.cons_val_zero, Matrix.cons_val_one, Matrix.head_cons,
    Matrix.cons_val_two, Matrix.tail_cons, Matrix.vecHead, Matrix.vecTail]

lemma diagS_inv : (!![1,0,0; 0,2,0; 0,0,1] : Mat3)⁻¹ =
    !![1,0,0; 0,(1:ℝ)/2,0; 0,0,1] := by
  apply Matrix.inv_eq_left_inv
  ext i j
  fin_cases i <;> fin_cases j <;>
    norm_num [Matrix.mul_apply, Fin.sum_univ_three, Matrix.cons_val_zero,
      Matrix.cons_val_one, Matrix.head_cons, Matrix.cons_val_two,
      Matrix.tail_cons, Matrix.vecHead, Matrix.vecTail, Matrix.one_apply,
      Fin.ext_iff]

lemma diagS_a : ((!![1,0,0; 0,2,0; 0,0,1] : Mat3))⁻¹.mulVec ![0, 0, 5] =
    ![0, 0, 5] := by
  rw [diagS_inv]
  funext i
  fin_cases i <;>
    norm_num [Matrix.mulVec, Matrix.dotProduct, Fin.sum_univ_three,
      Matrix.cons_val_zero, Matrix.cons_val_one, Matrix.head_cons,
      Matrix.cons_val_two, Matrix.tail_cons, Matrix.vecHead, Matrix.vecTail]

lemma align_track5 : alignLoop [5] track5.points 0 = .ok ([0], [((1, 0), (1, 0))]) := by
  have a0 : advanceIdx [5] 5 0 = 0 := by
    rw [advanceIdx]
    norm_num
  simp [alignLoop, track5, a0]

/-! ## C9: behind-camera rejection, and C5: the row indexing of the linearizer -/

/-- C9 (confirmed): if the track reaches the linearizer (alignment, pose-trail
query and triangulation all succeed) and any contributing camera observation
puts the triangulated point at `ac.z <= 0`, the whole track is skipped:
processing stops at the first offending observation via `continue (quote)
track`, no measurement model is produced for the track, and nothing is
contributed to `H` and `y`.  The column-layout hypothesis is the filter
collaborators contract that the position and orientation columns fit in the
state. -/
theorem behind_camera_rejects_track (kf : KalmanFilter) (w : List ℕ) (t : Track)
    (inds : List ℕ) (ncs : List NC2) (poses : List PosePair)
    (ha : alignLoop w t.points 0 = .ok (inds, ncs))
    (hp : kf.get_camera_pose_trail inds = some poses)
    (hS : IsUnit (triS ncs poses).det)
    (hcols : ∀ o ∈ flattenPoses poses,
      kf.get_camera_pos_ind o.1 + 3 ≤ kf.get_camera_state_len ∧
      kf.get_camera_ori_ind o.1 + 4 ≤ kf.get_camera_state_len)
    (hoff : ∃ o ∈ flattenPoses poses,
      (o.2.R.mulVec ((triS ncs poses)⁻¹.mulVec (triT ncs poses) - o.2.p)) 2 ≤ 0) :
    processTrack kf w t = .skip := by
  rw [processTrack_lin kf w t inds ncs poses ha hp hS]
  refine linLoop_skip _ _ _ (flattenPoses poses) 0 _ _ ?_ ?_ hcols hoff
  · simp [flattenPoses, flattenPosesAux_length]
  · simp [flattenPoses, flattenPosesAux_length]

lemma hoff9 : ∃ o ∈ flattenPoses [(poseA9, poseB5)],
    (o.2.R.mulVec ((triS [((1, 0), (1, 0))] [(poseA9, poseB5)])⁻¹.mulVec
      (triT [((1, 0), (1, 0))] [(poseA9, poseB5)]) - o.2.p)) 2 ≤ 0 := by
  refine ⟨(0, poseA9), by simp [flattenPoses, flattenPosesAux], ?_⟩
  rw [triS9_eval, triT9_eval, diagS_a]
  norm_num [poseA9, Matrix.mulVec, Matrix.dotProduct, Fin.sum_univ_three,
    Matrix.cons_val_zero, Matrix.cons_val_one, Matrix.head_cons,
    Matrix.cons_val_two, Matrix.tail_cons, Matrix.vecHead, Matrix.vecTail]

lemma hcols9 : ∀ o ∈ flattenPoses [(poseA9, poseB5)],
    kf9.get_camera_pos_ind o.1 + 3 ≤ kf9.get_camera_state_len ∧
    kf9.get_camera_ori_ind o.1 + 4 ≤ kf9.get_camera_state_len := by
  intro o ho
  simp only [flattenPoses, flattenPosesAux, List.mem_cons, List.not_mem_nil,
    or_false] at ho
  rcases ho with rfl | rfl <;> simp [kf9]

/-- C9 witness: a stereo pair whose first camera is reflected so that the
triangulated point `(0, 0, 5)` falls behind it (`ac.z = -5`); the track is
skipped. -/
theorem behind_camera_rejects_track_witness :
    (alignLoop [5] track5.points 0 = .ok ([0], [((1, 0), (1, 0))]) ∧
     kf9.get_camera_pose_trail [0] = some [(poseA9, poseB5)] ∧
     IsUnit (triS [((1, 0), (1, 0))] [(poseA9, poseB5)]).det ∧
     (∀ o ∈ flattenPoses [(poseA9, poseB5)],
        kf9.get_camera_pos_ind o.1 + 3 ≤ kf9.get_camera_state_len ∧
        kf9.get_camera_ori_ind o.1 + 4 ≤ kf9.get_camera_state_len) ∧
     (∃ o ∈ flattenPoses [(poseA9, poseB5)],
        (o.2.R.mulVec ((triS [((1, 0), (1, 0))] [(poseA9, poseB5)])⁻¹.mulVec
          (triT [((1, 0), (1, 0))] [(poseA9, poseB5)]) - o.2.p)) 2 ≤ 0)) ∧
    processTrack kf9 [5] track5 = .skip := by
  have hS : IsUnit (triS [((1, 0), (1, 0))] [(poseA9, poseB5)]).det := by
    rw [triS9_eval]
    exact diagS_det
  exact ⟨⟨align_track5, rfl, hS, hcols9, hoff9⟩,
    behind_camera_rejects_track kf9 [5] track5 _ _ _ align_track5 rfl hS hcols9 hoff9⟩

lemma acA5 : poseA5.R.mulVec (![(0:ℝ), 0, 5] - poseA5.p) = ![5, 0, 5] := by
  funext i
  fin_cases i <;>
    norm_num [poseA5, Matrix.mulVec, Matrix.dotProduct, Fin.sum_univ_three,
      Matrix.cons_val_zero, Matrix.cons_val_one, Matrix.head_cons,
      Matrix.cons_val_two, Matrix.tail_cons, Matrix.vecHead, Matrix.vecTail]

lemma acB5 : poseB5.R.mulVec (![(0:ℝ), 0, 5] - poseB5.p) = ![-7, 0, 7] := by
  funext i
  fin_cases i <;>
    norm_num [poseB5, Matrix.mulVec, Matrix.dotProduct, Fin.sum_univ_three,
      Matrix.cons_val_zero, Matrix.cons_val_one, Matrix.head_cons,
      Matrix.cons_val_two, Matrix.tail_cons, Matrix.vecHead, Matrix.vecTail,
      Pi.sub_apply]

/-- C5 (code_bug): the claim states every write into `y` and `H` stays within
the allocated `2n` rows with disjoint row pairs per camera observation.  The
code uses `row = 2 * i + j` (stride 1 per camera observation) while allocating
only `2n` entries for the `2 * 2n` coordinates: on a single retained stereo
frame whose two observations both pass the `ac.z > 0` check, the second
observation writes `y[1]` (overlapping the first observations rows) and then
`y[2]`, one past the end of `y` — a panic. -/
theorem linearizer_row_overflow :
    processTrack kf5 [5] track5 = .fault .yIndex := by
  have hS : IsUnit (triS [((1, 0), (1, 0))] [(poseA5, poseB5)]).det := by
    rw [triS5_eval]
    exact diagS_det
  rw [processTrack_lin kf5 [5] track5 [0] [((1, 0), (1, 0))] [(poseA5, poseB5)]
    align_track5 rfl hS]
  rw [show (triS [((1, 0), (1, 0))] [(poseA5, poseB5)])⁻¹.mulVec
      (triT [((1, 0), (1, 0))] [(poseA5, poseB5)]) = ![(0:ℝ), 0, 5] by
    rw [triS5_eval, triT5_eval, diagS_a]]
  rw [show flattenPoses [(poseA5, poseB5)] = [(0, poseA5), (0, poseB5)] from rfl]
  have hzA : ¬ (poseA5.R.mulVec (![(0:ℝ), 0, 5] - poseA5.p)) 2 ≤ 0 := by
    rw [acA5]
    norm_num [Matrix.cons_val_two, Matrix.tail_cons, Matrix.vecHead, Matrix.vecTail]
  have hzB : ¬ (poseB5.R.mulVec (![(0:ℝ), 0, 5] - poseB5.p)) 2 ≤ 0 := by
    rw [acB5]
    norm_num [Matrix.cons_val_two, Matrix.tail_cons, Matrix.vecHead, Matrix.vecTail]
  obtain ⟨y2, H2, hl, hr, hc, hstep⟩ :=
    linLoop_step ![(0:ℝ), 0, 5] kf5.get_camera_pos_ind kf5.get_camera_ori_ind
      0 poseA5 [(0, poseB5)] 0
      ⟨2 * ([(poseA5, poseB5)] : List PosePair).length, fun _ => 0⟩
      ⟨2 * ([(poseA5, poseB5)] : List PosePair).length,
        kf5.get_camera_state_len, fun _ _ => 0⟩
      hzA (by norm_num) (by norm_num) (by simp [kf5]) (by simp [kf5])
  rw [hstep]
  apply linLoop_last_fault _ _ _ 0 poseB5 1 y2 H2 hzB
  · rw [hl]
    norm_num
  · rw [hl]
    norm_num
